import Mathlib

/-!
Verification development for the image-handling core of Fotoleine.

The definitions below are a shallow embedding of the Rust sources:
  - src/image_handling/mod.rs        (ImageLoadingPolicy)
  - src/image_handling/loaded_dir.rs (LoadedDir, ImageRatings, RatingsData, Rating)
  - src/image_handling/loader_pool.rs (LoadWorker, LoadNotification)
  - src/worker_pool.rs               (WorkerPool)
  - src/main.rs                      (the LoadNotification event handler)

Rust `usize` values are modelled as `Nat`, `i32` arithmetic as `Int`
(the values involved are directory indices, far below the overflow range),
`HashMap` key sets as `Finset Nat` where only the keys matter, and
`HashMap<String, _>` as key-unique association lists.
-/

namespace Fotoleine

/-! ## ImageLoadingPolicy (src/image_handling/mod.rs) -/

/-- Embeds `fn clamp(v: i32, mi: i32, ma: i32) -> i32 { v.max(mi).min(ma) }`
(mod.rs lines 113-115). -/
def clampI (v mi ma : Int) : Int :=
  min (max v mi) ma

/-- Embeds `struct ImageLoadingPolicy` (mod.rs lines 48-52): the three
configured counts, all Rust `usize`. -/
structure ImageLoadingPolicy where
  buffer_zone_count : Nat
  load_behind_count : Nat
  load_ahead_count : Nat

/-- Embeds `ImageLoadingPolicy::max_loaded_image_count` (mod.rs lines 63-65). -/
def ImageLoadingPolicy.max_loaded_image_count (p : ImageLoadingPolicy) : Nat :=
  1 + p.buffer_zone_count * 2 + p.load_behind_count + p.load_ahead_count

/-- Embeds `ImageLoadingPolicy::buffer_zone_range` (mod.rs lines 76-81):
the inclusive `i32` range `pivot - buffer_zone_count ..= pivot + buffer_zone_count`,
returned as its two endpoints. -/
def ImageLoadingPolicy.buffer_zone_range (p : ImageLoadingPolicy) (pivot : Nat) : Int × Int :=
  ((pivot : Int) - (p.buffer_zone_count : Int), (pivot : Int) + (p.buffer_zone_count : Int))

/-- Distance used by the sort comparator in `load_set_around_pivot`
(mod.rs lines 96-97): `(pivot as i32 - a as i32).abs()`. -/
def distTo (pivot a : Nat) : Nat :=
  ((pivot : Int) - (a : Int)).natAbs

/-- Embeds the comparator closure passed to `sort_unstable_by`
(mod.rs lines 91-106): ahead-ness (`a >= pivot`) compared reversed
(ahead sorts first), then distance to the pivot, lexicographically. -/
def loadOrderCmp (pivot a b : Nat) : Ordering :=
  ((compare (decide (pivot ≤ a)) (decide (pivot ≤ b))).swap).then
    (compare (distTo pivot a) (distTo pivot b))

/-- The non-strict order induced by `loadOrderCmp`: `a` may come before `b`
exactly when the comparator does not answer `Greater`. -/
def loadOrderR (pivot : Nat) (a b : Nat) : Prop :=
  loadOrderCmp pivot a b ≠ Ordering.gt

instance loadOrderR.instDecidable (pivot a b : Nat) : Decidable (loadOrderR pivot a b) :=
  inferInstanceAs (Decidable (loadOrderCmp pivot a b ≠ Ordering.gt))

/-- Embeds `ImageLoadingPolicy::load_set_around_pivot` (mod.rs lines 83-109):
the inclusive window `[pivot - buffer_zone - load_behind, pivot + buffer_zone + load_ahead]`
clamped to `[0, max - 1]`, sorted by the priority comparator.
Rust `sort_unstable_by` is modelled by insertion sort with the same
comparator; the comparator is total, transitive, and antisymmetric on the
duplicate-free window, so the sorted result is the unique one the Rust
sort also produces. (For `max = 0` the Rust code underflows `max - 1`;
all theorems about this function assume `0 < max`.) -/
def ImageLoadingPolicy.load_set_around_pivot (p : ImageLoadingPolicy) (pivot mx : Nat) : List Nat :=
  let start := (clampI ((pivot : Int) - (p.buffer_zone_count : Int) - (p.load_behind_count : Int)) 0 ((mx : Int) - 1)).toNat
  let stop := (clampI ((pivot : Int) + (p.buffer_zone_count : Int) + (p.load_ahead_count : Int)) 0 ((mx : Int) - 1)).toNat
  List.insertionSort (loadOrderR pivot) (List.range' start (stop + 1 - start))

/-- Embeds `ImageLoadingPolicy::get_load_set` (mod.rs lines 68-74):
if the shown index lies in the buffer zone around the pivot, keep the pivot,
otherwise re-anchor on the shown index; in both cases return the priority
ordered load set around the (new) pivot. -/
def ImageLoadingPolicy.get_load_set (p : ImageLoadingPolicy) (pivot shown_idx mx : Nat) : Nat × List Nat :=
  if (p.buffer_zone_range pivot).1 ≤ (shown_idx : Int) ∧ (shown_idx : Int) ≤ (p.buffer_zone_range pivot).2 then
    (pivot, p.load_set_around_pivot pivot mx)
  else
    (shown_idx, p.load_set_around_pivot shown_idx mx)

/-! ## LoadedDir (src/image_handling/loaded_dir.rs)

Only the fields the claims are about are kept: the cache and pending-load
maps are keyed by collection index and the claims only concern their key
sets, so `loaded_images` and `pending_loads` are `Finset Nat`
(`HashMap<usize, PlacedImage>` keys, `HashSet<usize>`). -/

/-- State of `struct LoadedDir` (loaded_dir.rs lines 13-26), restricted to
the navigation and cache bookkeeping fields. -/
structure DirState where
  active_idxs : List Nat
  load_pivot : Nat
  current_idx : Nat
  loaded_images : Finset Nat
  pending_loads : Finset Nat
  deriving DecidableEq

/-- Embeds `fn offset_idx(idx, max, offset)` (loaded_dir.rs lines 28-35):
signed addition then clamp to `[0, max - 1]`. -/
def offset_idx (idx mx : Nat) (offset : Int) : Nat :=
  (min (max ((idx : Int) + offset) 0) ((mx : Int) - 1)).toNat

/-- Embeds `LoadedDir::update_loaded` (loaded_dir.rs lines 166-186):
ask the policy for the load set, map it through `active_idxs`
(`collection_idx`), retain only cached entries inside the load set, and for
every load-set index that is neither cached nor pending, mark it pending
(`needs_load`, lines 188-190, and `submit_load_request`, lines 192-196,
whose pool submission has no effect on this state). -/
def updateLoaded (p : ImageLoadingPolicy) (s : DirState) : DirState :=
  let res := p.get_load_set s.load_pivot s.current_idx s.active_idxs.length
  let load_coll_idxs := res.2.map (fun idx => s.active_idxs.getD idx 0)
  let retained := s.loaded_images.filter (fun key => key ∈ load_coll_idxs)
  let pending := load_coll_idxs.foldl
    (fun pend coll_idx =>
      if coll_idx ∉ retained ∧ coll_idx ∉ pend then insert coll_idx pend else pend)
    s.pending_loads
  { s with load_pivot := res.1, loaded_images := retained, pending_loads := pending }

/-- Embeds `LoadedDir::offset_current` (loaded_dir.rs lines 90-93). -/
def offsetCurrent (p : ImageLoadingPolicy) (offset : Int) (s : DirState) : DirState :=
  updateLoaded p { s with current_idx := offset_idx s.current_idx s.active_idxs.length offset }

/-- Embeds `LoadedDir::receive_image` (loaded_dir.rs lines 198-221) for a
result carrying collection index `idx`. If the index is not yet cached, a
texture is created (`texture_ok` tells whether `ImageTexture::from_data`
succeeded; on failure the `?` operator returns before any mutation), the
image is inserted into the cache and the pending marker is removed.
If the index is already cached the result is discarded. -/
def receiveImage (idx : Nat) (texture_ok : Bool) (s : DirState) : DirState :=
  if idx ∉ s.loaded_images then
    if texture_ok then
      { s with
        loaded_images := insert idx s.loaded_images,
        pending_loads := s.pending_loads.erase idx }
    else s
  else s

/-- Embeds the state set up by `LoadedDir::new` (loaded_dir.rs lines 38-88)
for a directory whose filtered, sorted collection has `n` entries:
`active_idxs = 0..n`, pivot and current index 0, empty cache and pending
set, followed by the `update_loaded` call on line 85. -/
def initDir (p : ImageLoadingPolicy) (n : Nat) : DirState :=
  updateLoaded p
    { active_idxs := List.range n
      load_pivot := 0
      current_idx := 0
      loaded_images := ∅
      pending_loads := ∅ }

/-- The operations the claims quantify over: navigation
(`offset_current`, `update_loaded`) and result receiving (`receive_image`,
with an adversarially chosen index and texture-creation outcome, modelling
arbitrary out-of-order delivery from the worker pool). -/
inductive DirOp where
  | offset (off : Int)
  | update
  | receive (idx : Nat) (texture_ok : Bool)

/-- Applies one operation to a `DirState`. -/
def applyOp (p : ImageLoadingPolicy) (s : DirState) : DirOp → DirState
  | .offset off => offsetCurrent p off s
  | .update => updateLoaded p s
  | .receive idx ok => receiveImage idx ok s

/-- Applies a sequence of operations. -/
def applyOps (p : ImageLoadingPolicy) (s : DirState) (ops : List DirOp) : DirState :=
  ops.foldl (applyOp p) s

/-! ## Ratings (src/image_handling/loaded_dir.rs lines 299-435)

`HashMap<String, Rating>` is modelled as a key-unique association list:
`hmInsert` replaces any previous binding of the key, `hmLookup` finds the
binding of a key. -/

/-- Embeds `enum Rating` (loaded_dir.rs lines 346-351). -/
inductive Rating where
  | Low
  | Medium
  | High
  deriving DecidableEq

/-- Embeds `Rating::from_u8` (loaded_dir.rs lines 354-363): the value is
limited to `[0, 2]` with `min`, then mapped to the three levels. -/
def Rating.from_u8 (val : Nat) : Rating :=
  let limited := min val 2
  if limited = 0 then Rating.Low
  else if limited = 1 then Rating.Medium
  else Rating.High

/-- Embeds `Rating::to_u8` (loaded_dir.rs lines 365-371). -/
def Rating.to_u8 : Rating → Nat
  | Rating.Low => 0
  | Rating.Medium => 1
  | Rating.High => 2

/-- HashMap insert: binds `k` to `v`, replacing any previous binding. -/
def hmInsert {α : Type} (m : List (String × α)) (k : String) (v : α) : List (String × α) :=
  (k, v) :: m.filter (fun kv => kv.1 ≠ k)

/-- HashMap lookup. -/
def hmLookup {α : Type} (m : List (String × α)) (k : String) : Option α :=
  (m.find? (fun kv => kv.1 = k)).map (fun kv => kv.2)

/-- Embeds `struct RatingsData` (loaded_dir.rs lines 376-379). -/
structure RatingsData where
  ratings : List (String × Rating)
  orphaned_ratings : List (String × Rating)

/-- Embeds `RatingsData::load` (loaded_dir.rs lines 382-416).
`known_images` is the key list of the `name_to_idx` map (the file names of
the directory collection). `file` is `none` when no ratings file exists,
otherwise the deserialized file-name to `u8`-level map (a YAML map, so its
keys are unique). Every known image first gets a default `Low` rating;
each file entry is then clamped with `Rating::from_u8` and routed to the
active map when its name is known, and to the orphaned map otherwise. -/
def RatingsData.load (known_images : List String) (file : Option (List (String × Nat))) : RatingsData :=
  let base : RatingsData :=
    { ratings := known_images.foldl (fun m name => hmInsert m name Rating.Low) []
      orphaned_ratings := [] }
  match file with
  | none => base
  | some deser_map =>
    deser_map.foldl
      (fun d kv =>
        let rating := Rating.from_u8 kv.2
        if kv.1 ∈ known_images then
          { d with ratings := hmInsert d.ratings kv.1 rating }
        else
          { d with orphaned_ratings := hmInsert d.orphaned_ratings kv.1 rating })
      base

/-- Ordering used by the serializer on (name, rating) entries:
`entries.sort_unstable_by_key(|kv| kv.0)`, string order on the name. -/
def keyOrderR (a b : String × Rating) : Prop :=
  a.1 ≤ b.1

instance keyOrderR.instDecidable (a b : String × Rating) : Decidable (keyOrderR a b) :=
  inferInstanceAs (Decidable (a.1 ≤ b.1))

/-- Embeds `impl Serialize for RatingsData` (loaded_dir.rs lines 420-435):
the active and orphaned entries are chained, sorted by file name, and
written out as a name to `u8` level map. This is the content of the file
that `ImageRatings::save_ratings` (lines 331-339) persists. As for the
load set, the unstable Rust sort is modelled by insertion sort. -/
def RatingsData.serialize (d : RatingsData) : List (String × Nat) :=
  let entries := d.ratings ++ d.orphaned_ratings
  (List.insertionSort keyOrderR entries).map (fun kv => (kv.1, kv.2.to_u8))

/-- Embeds `ImageRatings::set_rating` (loaded_dir.rs lines 322-325) on the
underlying data: the rating is inserted unconditionally (there is no
removal for `Low`), then `save_ratings` persists `RatingsData.serialize`. -/
def setRating (d : RatingsData) (img_name : String) (rating : Rating) : RatingsData :=
  { d with ratings := hmInsert d.ratings img_name rating }

/-- Embeds `ImageRatings::get_rating` (loaded_dir.rs lines 327-329) before
its `unwrap`: the raw lookup in the active rating map. The Rust code
unwraps this option; `LoadedDir::get_current_rating` (lines 131-134) calls
it with the file name of the current collection entry, which is always a
key of `name_to_idx`. -/
def getRating (d : RatingsData) (img_name : String) : Option Rating :=
  hmLookup d.ratings img_name

/-! ## Loader pool and worker pool
(src/image_handling/loader_pool.rs, src/worker_pool.rs, src/main.rs) -/

/-- Embeds `enum LoadNotification` (loader_pool.rs lines 9-13). -/
inductive LoadNote where
  | ImageLoaded
  | LoadFailed
  deriving DecidableEq

/-- Embeds `LoadWorker::execute` (loader_pool.rs lines 24-49) for the load
of collection index `idx`, given whether `ImageData::load` succeeded:
on success the `(image, idx)` pair is sent on the output channel and an
`ImageLoaded` event is posted; on decode failure nothing is sent on the
output channel and a `LoadFailed` event is posted. The first component is
the list of indices sent on the output channel, the second the posted
event. (The channel-send-failure branch, which also posts `LoadFailed`,
only occurs after the receiving half is dropped and is not modelled.) -/
def LoadWorker.execute (decode_ok : Bool) (idx : Nat) : List Nat × LoadNote :=
  if decode_ok then ([idx], LoadNote.ImageLoaded) else ([], LoadNote.LoadFailed)

/-- Embeds the `LoadNotification::LoadFailed` arm of `Fotoleine::on_event`
(main.rs lines 268-273): it prints a diagnostic and does nothing else; the
notification carries no index and no `LoadedDir` state is touched. -/
def onLoadFailed (s : DirState) : DirState :=
  s

/-- Embeds the thread body spawned by `WorkerPool::new` (worker_pool.rs
lines 23-30): each spawned thread runs
`worker.execute(input_clone, output)` exactly once, on a clone of
`dummy_input`, and then exits. This is the full list of inputs a worker
thread ever passes to `execute` (there is no task queue, no `submit`
method, and no loop in `worker_pool.rs`). -/
def workerThreadInputs {α : Type} (dummy_input : α) : List α :=
  [dummy_input]

/-- Embeds `impl Drop for WorkerPool` (worker_pool.rs lines 39-47): the
destructor joins every worker thread; it sends no message of any kind
(there is no task or shutdown channel in the implementation), so the
number of shutdown signals enqueued is 0 regardless of the pool size. -/
def dropShutdownSignalCount (_n_workers : Nat) : Nat :=
  0

/-! ## Helper lemmas about the loading policy -/

lemma compare_bool_tt : compare true true = Ordering.eq := rfl

lemma compare_bool_ff : compare false false = Ordering.eq := rfl

lemma compare_bool_tf : compare true false = Ordering.gt := rfl

lemma compare_bool_ft : compare false true = Ordering.lt := rfl

lemma loadOrderR_iff (q a b : Nat) :
    loadOrderR q a b ↔
      ((q ≤ a ∧ ¬ q ≤ b) ∨ ((q ≤ a ↔ q ≤ b) ∧ distTo q a ≤ distTo q b)) := by
  unfold loadOrderR loadOrderCmp
  by_cases ha : q ≤ a <;> by_cases hb : q ≤ b
  · simp only [decide_eq_true ha, decide_eq_true hb, compare_bool_tt,
      Ordering.swap, Ordering.then]
    simp [ha, hb, Nat.compare_eq_gt]
  · simp only [decide_eq_true ha, decide_eq_false hb, compare_bool_tf,
      Ordering.swap, Ordering.then]
    simp [ha, hb]
  · simp only [decide_eq_false ha, decide_eq_true hb, compare_bool_ft,
      Ordering.swap, Ordering.then]
    simp [ha, hb]
  · simp only [decide_eq_false ha, decide_eq_false hb, compare_bool_ff,
      Ordering.swap, Ordering.then]
    simp [ha, hb, Nat.compare_eq_gt]

lemma same_rank_eq (q a b : Nat) (hside : q ≤ a ↔ q ≤ b)
    (hdist : distTo q a = distTo q b) : a = b := by
  simp only [distTo] at hdist
  omega

lemma pairwiseAnd {α : Type} {R S : α → α → Prop} :
    ∀ {l : List α}, l.Pairwise R → l.Pairwise S → l.Pairwise (fun a b => R a b ∧ S a b) := by
  intro l h1 h2
  induction l with
  | nil => exact List.Pairwise.nil
  | cons x xs ih =>
    cases h1 with
    | cons hx1 hxs1 =>
      cases h2 with
      | cons hx2 hxs2 =>
        exact List.Pairwise.cons (fun b hb => ⟨hx1 b hb, hx2 b hb⟩) (ih hxs1 hxs2)

lemma pairwise_load_set (p : ImageLoadingPolicy) (q mx : Nat) :
    (p.load_set_around_pivot q mx).Pairwise
      (fun a b => (q ≤ b → q ≤ a) ∧ ((q ≤ a ↔ q ≤ b) → distTo q a < distTo q b)) := by
  unfold ImageLoadingPolicy.load_set_around_pivot
  haveI : IsTotal Nat (loadOrderR q) :=
    ⟨fun a b => by simp only [loadOrderR_iff, distTo]; omega⟩
  haveI : IsTrans Nat (loadOrderR q) :=
    ⟨fun a b c => by simp only [loadOrderR_iff, distTo]; omega⟩
  have hs := List.sorted_insertionSort (loadOrderR q)
    (List.range' ((clampI ((q : Int) - (p.buffer_zone_count : Int) - (p.load_behind_count : Int)) 0 ((mx : Int) - 1)).toNat)
      (((clampI ((q : Int) + (p.buffer_zone_count : Int) + (p.load_ahead_count : Int)) 0 ((mx : Int) - 1)).toNat) + 1 -
        ((clampI ((q : Int) - (p.buffer_zone_count : Int) - (p.load_behind_count : Int)) 0 ((mx : Int) - 1)).toNat)))
  have hperm := List.perm_insertionSort (loadOrderR q)
    (List.range' ((clampI ((q : Int) - (p.buffer_zone_count : Int) - (p.load_behind_count : Int)) 0 ((mx : Int) - 1)).toNat)
      (((clampI ((q : Int) + (p.buffer_zone_count : Int) + (p.load_ahead_count : Int)) 0 ((mx : Int) - 1)).toNat) + 1 -
        ((clampI ((q : Int) - (p.buffer_zone_count : Int) - (p.load_behind_count : Int)) 0 ((mx : Int) - 1)).toNat)))
  have hnd := hperm.symm.nodup (List.nodup_range' _ _)
  refine (pairwiseAnd hs hnd).imp ?_
  intro a b hab
  obtain ⟨hr, hne⟩ := hab
  rw [loadOrderR_iff] at hr
  constructor
  · intro hqb
    rcases hr with ⟨haa, hnb⟩ | ⟨hiff, _⟩
    · exact absurd hqb hnb
    · exact hiff.mpr hqb
  · intro hiff
    rcases hr with ⟨haa, hnb⟩ | ⟨_, hle⟩
    · exact absurd (hiff.mp haa) hnb
    · exact lt_of_le_of_ne hle (fun heq => hne (same_rank_eq q a b hiff heq))

lemma mem_load_set_around_pivot (p : ImageLoadingPolicy) (pivot shown mx : Nat)
    (hmx : 0 < mx) (hs : shown < mx)
    (hlo : (pivot : Int) - (p.buffer_zone_count : Int) ≤ (shown : Int))
    (hhi : (shown : Int) ≤ (pivot : Int) + (p.buffer_zone_count : Int)) :
    shown ∈ p.load_set_around_pivot pivot mx := by
  unfold ImageLoadingPolicy.load_set_around_pivot
  rw [List.Perm.mem_iff (List.perm_insertionSort _ _)]
  rw [List.mem_range'_1]
  simp only [clampI]
  omega

lemma length_load_set_around_pivot (p : ImageLoadingPolicy) (pivot mx : Nat) :
    (p.load_set_around_pivot pivot mx).length ≤
      1 + 2 * p.buffer_zone_count + p.load_behind_count + p.load_ahead_count := by
  unfold ImageLoadingPolicy.load_set_around_pivot
  rw [(List.perm_insertionSort _ _).length_eq]
  rw [List.length_range']
  simp only [clampI]
  omega

lemma get_load_set_fst_of_in_zone (p : ImageLoadingPolicy) (pivot shown mx : Nat)
    (h : (p.buffer_zone_range pivot).1 ≤ (shown : Int) ∧
      (shown : Int) ≤ (p.buffer_zone_range pivot).2) :
    (p.get_load_set pivot shown mx).1 = pivot := by
  unfold ImageLoadingPolicy.get_load_set
  rw [if_pos h]

/-! ## Claim theorems about the loading policy -/

/-- C2: for every pivot, every shown index with `0 <= shown < collection_size`,
and every `collection_size > 0`, the ordered index list returned by
`get_load_set(pivot, shown, collection_size)` contains `shown`, and its
length is at most `1 + 2*buffer_zone + look_behind + look_ahead`. -/
theorem c2_load_set_contains_shown_and_is_bounded (p : ImageLoadingPolicy)
    (pivot shown mx : Nat) (hmx : 0 < mx) (hs : shown < mx) :
    shown ∈ (p.get_load_set pivot shown mx).2 ∧
      (p.get_load_set pivot shown mx).2.length ≤
        1 + 2 * p.buffer_zone_count + p.load_behind_count + p.load_ahead_count := by
  unfold ImageLoadingPolicy.get_load_set
  split
  case isTrue h =>
    simp only [ImageLoadingPolicy.buffer_zone_range] at h
    exact ⟨mem_load_set_around_pivot p pivot shown mx hmx hs h.1 h.2,
      length_load_set_around_pivot p pivot mx⟩
  case isFalse h =>
    refine ⟨mem_load_set_around_pivot p shown shown mx hmx hs ?_ ?_,
      length_load_set_around_pivot p shown mx⟩
    · omega
    · omega

/-- Witness for C2 at the configuration used by the application
(buffer zone 2, look-behind 2, look-ahead 5), pivot 0, shown 3, size 10. -/
theorem c2_witness :
    (0 : Nat) < 10 ∧ (3 : Nat) < 10 ∧
      (3 ∈ (ImageLoadingPolicy.get_load_set ⟨2, 2, 5⟩ 0 3 10).2 ∧
        (ImageLoadingPolicy.get_load_set ⟨2, 2, 5⟩ 0 3 10).2.length ≤ 1 + 2 * 2 + 2 + 5) :=
  ⟨by decide, by decide, c2_load_set_contains_shown_and_is_bounded ⟨2, 2, 5⟩ 0 3 10 (by decide) (by decide)⟩

/-- C4: if the shown index lies within `[pivot - buffer_zone, pivot + buffer_zone]`,
`get_load_set` returns the pivot unchanged; consequently, across any
sequence of calls in which the shown index always stays inside the current
pivot buffer zone, the pivot never changes. -/
theorem c4_pivot_hysteresis (p : ImageLoadingPolicy) (pivot mx shown : Nat)
    (shows : List Nat)
    (h1 : (p.buffer_zone_range pivot).1 ≤ (shown : Int) ∧
      (shown : Int) ≤ (p.buffer_zone_range pivot).2)
    (hall : ∀ s ∈ shows, (p.buffer_zone_range pivot).1 ≤ (s : Int) ∧
      (s : Int) ≤ (p.buffer_zone_range pivot).2) :
    (p.get_load_set pivot shown mx).1 = pivot ∧
      shows.foldl (fun q s => (p.get_load_set q s mx).1) pivot = pivot := by
  refine ⟨get_load_set_fst_of_in_zone p pivot shown mx h1, ?_⟩
  induction shows with
  | nil => rfl
  | cons s rest ih =>
    have hstep : (p.get_load_set pivot s mx).1 = pivot :=
      get_load_set_fst_of_in_zone p pivot s mx (hall s (by simp))
    simp only [List.foldl_cons, hstep]
    exact ih (fun t ht => hall t (by simp [ht]))

/-- Witness for C4: buffer zone 2, pivot 5, all shown values within `[3, 7]`. -/
theorem c4_witness :
    ((ImageLoadingPolicy.buffer_zone_range ⟨2, 2, 5⟩ 5).1 ≤ (4 : Int) ∧
      ((4 : Nat) : Int) ≤ (ImageLoadingPolicy.buffer_zone_range ⟨2, 2, 5⟩ 5).2) ∧
    (∀ s ∈ [3, 6, 7], (ImageLoadingPolicy.buffer_zone_range ⟨2, 2, 5⟩ 5).1 ≤ ((s : Nat) : Int) ∧
      ((s : Nat) : Int) ≤ (ImageLoadingPolicy.buffer_zone_range ⟨2, 2, 5⟩ 5).2) ∧
    ((ImageLoadingPolicy.get_load_set ⟨2, 2, 5⟩ 5 4 10).1 = 5 ∧
      List.foldl (fun q s => (ImageLoadingPolicy.get_load_set ⟨2, 2, 5⟩ q s 10).1) 5 [3, 6, 7] = 5) :=
  ⟨by decide, by decide,
    c4_pivot_hysteresis ⟨2, 2, 5⟩ 5 10 4 [3, 6, 7] (by decide) (by decide)⟩

/-- C5: in the ordered index list returned by `get_load_set`, every index at
or ahead of the (new) pivot appears before every index strictly behind it,
and among two indices on the same side of the pivot, the one at strictly
smaller distance from the pivot appears strictly earlier. -/
theorem c5_load_set_priority_order (p : ImageLoadingPolicy)
    (pivot shown mx : Nat) (_hmx : 0 < mx) :
    ((p.get_load_set pivot shown mx).2).Pairwise
      (fun a b =>
        ((p.get_load_set pivot shown mx).1 ≤ b → (p.get_load_set pivot shown mx).1 ≤ a) ∧
        (((p.get_load_set pivot shown mx).1 ≤ a ↔ (p.get_load_set pivot shown mx).1 ≤ b) →
          distTo (p.get_load_set pivot shown mx).1 a < distTo (p.get_load_set pivot shown mx).1 b)) := by
  unfold ImageLoadingPolicy.get_load_set
  split
  · exact pairwise_load_set p pivot mx
  · exact pairwise_load_set p shown mx

/-- Witness for C5 at the spec scenario: buffer zone 1, look-behind 1,
look-ahead 2, pivot 5, shown 5, size 10 (load order 5, 6, 7, 8, 4, 3). -/
theorem c5_witness :
    (0 : Nat) < 10 ∧
      ((ImageLoadingPolicy.get_load_set ⟨1, 1, 2⟩ 5 5 10).2).Pairwise
        (fun a b =>
          ((ImageLoadingPolicy.get_load_set ⟨1, 1, 2⟩ 5 5 10).1 ≤ b →
            (ImageLoadingPolicy.get_load_set ⟨1, 1, 2⟩ 5 5 10).1 ≤ a) ∧
          (((ImageLoadingPolicy.get_load_set ⟨1, 1, 2⟩ 5 5 10).1 ≤ a ↔
            (ImageLoadingPolicy.get_load_set ⟨1, 1, 2⟩ 5 5 10).1 ≤ b) →
            distTo (ImageLoadingPolicy.get_load_set ⟨1, 1, 2⟩ 5 5 10).1 a <
              distTo (ImageLoadingPolicy.get_load_set ⟨1, 1, 2⟩ 5 5 10).1 b)) :=
  ⟨by decide, c5_load_set_priority_order ⟨1, 1, 2⟩ 5 5 10 (by decide)⟩

/-! ## Helper lemmas about the directory session state -/

lemma pending_fold_not_mem_retained (retained : Finset Nat) :
    ∀ (L : List Nat) (pend : Finset Nat),
      (∀ x ∈ pend, x ∉ retained) →
      ∀ x ∈ L.foldl
        (fun pend coll_idx =>
          if coll_idx ∉ retained ∧ coll_idx ∉ pend then insert coll_idx pend else pend)
        pend,
        x ∉ retained := by
  intro L
  induction L with
  | nil => intro pend h x hx; exact h x hx
  | cons c rest ih =>
    intro pend h x hx
    simp only [List.foldl_cons] at hx
    refine ih _ ?_ x hx
    intro y hy
    by_cases hc : c ∉ retained ∧ c ∉ pend
    · rw [if_pos hc] at hy
      rcases Finset.mem_insert.mp hy with rfl | hmem
      · exact hc.1
      · exact h y hmem
    · rw [if_neg hc] at hy
      exact h y hy

lemma disjoint_updateLoaded (p : ImageLoadingPolicy) (s : DirState)
    (h : Disjoint s.loaded_images s.pending_loads) :
    Disjoint (updateLoaded p s).loaded_images (updateLoaded p s).pending_loads := by
  rw [Finset.disjoint_right]
  intro a ha
  unfold updateLoaded at ha ⊢
  refine pending_fold_not_mem_retained _ _ _ ?_ a ha
  intro y hy hmem
  exact Finset.disjoint_right.mp h hy (Finset.mem_of_mem_filter y hmem)

lemma disjoint_receiveImage (idx : Nat) (ok : Bool) (s : DirState)
    (h : Disjoint s.loaded_images s.pending_loads) :
    Disjoint (receiveImage idx ok s).loaded_images (receiveImage idx ok s).pending_loads := by
  unfold receiveImage
  by_cases hmem : idx ∉ s.loaded_images
  · rw [if_pos hmem]
    cases ok with
    | false => exact h
    | true =>
      rw [Finset.disjoint_left]
      intro x hx
      rcases Finset.mem_insert.mp hx with rfl | hx'
      · exact Finset.not_mem_erase x s.pending_loads
      · intro hpend
        exact Finset.disjoint_left.mp h hx' (Finset.mem_of_mem_erase hpend)
  · rw [if_neg hmem]
    exact h

lemma disjoint_applyOp (p : ImageLoadingPolicy) (s : DirState) (op : DirOp)
    (h : Disjoint s.loaded_images s.pending_loads) :
    Disjoint (applyOp p s op).loaded_images (applyOp p s op).pending_loads := by
  cases op with
  | offset off => exact disjoint_updateLoaded p _ h
  | update => exact disjoint_updateLoaded p s h
  | receive idx ok => exact disjoint_receiveImage idx ok s h

lemma disjoint_applyOps (p : ImageLoadingPolicy) (ops : List DirOp) :
    ∀ s : DirState, Disjoint s.loaded_images s.pending_loads →
      Disjoint (applyOps p s ops).loaded_images (applyOps p s ops).pending_loads := by
  induction ops with
  | nil => intro s h; exact h
  | cons op rest ih =>
    intro s h
    exact ih (applyOp p s op) (disjoint_applyOp p s op h)

/-! ## Claim theorems about the directory session -/

/-- C1: for every reachable state of the directory session, the cached
collection indices and the pending-load collection indices are disjoint:
after any sequence of navigation (`offset_current` / `update_loaded`) and
result-receiving (`receive_image`) operations starting from the state
built by `LoadedDir::new`, no index is simultaneously a key of
`loaded_images` and a member of `pending_loads`. -/
theorem c1_cache_pending_disjoint (p : ImageLoadingPolicy) (n : Nat) (ops : List DirOp) :
    Disjoint (applyOps p (initDir p n) ops).loaded_images
      (applyOps p (initDir p n) ops).pending_loads := by
  refine disjoint_applyOps p ops (initDir p n) ?_
  exact disjoint_updateLoaded p _ (by simp)

/-- C6 counterexample: with buffer zone, look-behind and look-ahead all 0
on a two-image directory, index 0 is pending from the initial load; after
`offset_current(1)` the resident window moves to index 1, index 0 is no
longer resident (it is not in the load set) and is not cached, yet its
load is still pending. When the delayed result for 0 then arrives,
`receive_image` does NOT leave the cache unchanged: it inserts index 0. -/
theorem c6_counterexample :
    (0 ∈ (applyOps ⟨0, 0, 0⟩ (initDir ⟨0, 0, 0⟩ 2) [DirOp.offset 1]).pending_loads ∧
      0 ∉ (applyOps ⟨0, 0, 0⟩ (initDir ⟨0, 0, 0⟩ 2) [DirOp.offset 1]).loaded_images ∧
      0 ∉ (ImageLoadingPolicy.get_load_set ⟨0, 0, 0⟩
        (applyOps ⟨0, 0, 0⟩ (initDir ⟨0, 0, 0⟩ 2) [DirOp.offset 1]).load_pivot
        (applyOps ⟨0, 0, 0⟩ (initDir ⟨0, 0, 0⟩ 2) [DirOp.offset 1]).current_idx 2).2) ∧
    (receiveImage 0 true (applyOps ⟨0, 0, 0⟩ (initDir ⟨0, 0, 0⟩ 2) [DirOp.offset 1])).loaded_images ≠
      (applyOps ⟨0, 0, 0⟩ (initDir ⟨0, 0, 0⟩ 2) [DirOp.offset 1]).loaded_images := by
  decide

/-- C6 (amended): when a load result arrives for a collection index that is
not currently in the cache — in particular one already evicted or dropped
from the resident window while its load was still pending — receiving the
result inserts that index into the cache and clears its pending marker;
only a result for an index that is still cached is discarded. -/
theorem c6_receive_inserts_when_not_cached (s : DirState) (idx : Nat)
    (h : idx ∉ s.loaded_images) :
    (receiveImage idx true s).loaded_images = insert idx s.loaded_images ∧
      (receiveImage idx true s).pending_loads = s.pending_loads.erase idx := by
  unfold receiveImage
  rw [if_pos h]
  exact ⟨rfl, rfl⟩

/-- Witness for the amended C6 at the state of the counterexample. -/
theorem c6_witness :
    0 ∉ (applyOps ⟨0, 0, 0⟩ (initDir ⟨0, 0, 0⟩ 2) [DirOp.offset 1]).loaded_images ∧
    ((receiveImage 0 true (applyOps ⟨0, 0, 0⟩ (initDir ⟨0, 0, 0⟩ 2) [DirOp.offset 1])).loaded_images =
        insert 0 (applyOps ⟨0, 0, 0⟩ (initDir ⟨0, 0, 0⟩ 2) [DirOp.offset 1]).loaded_images ∧
      (receiveImage 0 true (applyOps ⟨0, 0, 0⟩ (initDir ⟨0, 0, 0⟩ 2) [DirOp.offset 1])).pending_loads =
        (applyOps ⟨0, 0, 0⟩ (initDir ⟨0, 0, 0⟩ 2) [DirOp.offset 1]).pending_loads.erase 0) :=
  ⟨by decide,
    c6_receive_inserts_when_not_cached
      (applyOps ⟨0, 0, 0⟩ (initDir ⟨0, 0, 0⟩ 2) [DirOp.offset 1]) 0 (by decide)⟩

/-- C7 counterexample: in the initial two-image session with all counts 0,
index 0 is pending; its decode fails (`ImageData::load` returns an error),
so the worker sends nothing on the output channel and posts `LoadFailed`;
the `LoadFailed` arm of `Fotoleine::on_event` only prints, so after the
failure is fully processed the pending marker of index 0 is still set —
refuting the part of the claim that says the pending marker is cleared. -/
theorem c7_counterexample :
    0 ∈ (initDir ⟨0, 0, 0⟩ 2).pending_loads ∧
    (LoadWorker.execute false 0).1 = [] ∧
    (LoadWorker.execute false 0).2 = LoadNote.LoadFailed ∧
    0 ∈ (onLoadFailed (initDir ⟨0, 0, 0⟩ 2)).pending_loads := by
  decide

/-- C7 (amended): for every submitted load whose decode fails, the failing
index is left un-cached and is not re-attempted automatically, a
load-failed notification is surfaced to the caller, but the pending marker
is NOT cleared: the notification carries no index and its handler leaves
the session state untouched (which is also why the index is never
re-requested: `needs_load` keeps answering false while it stays pending). -/
theorem c7_decode_failure_state (s : DirState) (idx : Nat) :
    (LoadWorker.execute false idx).1 = [] ∧
      (LoadWorker.execute false idx).2 = LoadNote.LoadFailed ∧
      onLoadFailed s = s :=
  ⟨rfl, rfl, rfl⟩

/-- C8: the worker-pool implementation has no task loop and no shutdown
signalling. Each spawned thread passes exactly the one dummy input to
`execute` and exits, and the destructor enqueues zero shutdown signals
for any pool size — contradicting both the design comments at the bottom
of `worker_pool.rs` and the callers (`loaded_dir.rs` submits to a `submit`
method that does not exist). -/
theorem c8_worker_runs_once_and_no_shutdown_signals :
    (∀ d : Nat, workerThreadInputs d = [d]) ∧
      (∀ n : Nat, dropShutdownSignalCount n = 0) :=
  ⟨fun _ => rfl, fun _ => rfl⟩

/-! ## Helper lemmas about the ratings maps -/

lemma find_filter_eq {α : Type} (p q : α → Bool) (h : ∀ a, p a = true → q a = true) :
    ∀ l : List α, List.find? p (l.filter q) = List.find? p l := by
  intro l
  induction l with
  | nil => rfl
  | cons a l ih =>
    by_cases hq : q a
    · rw [List.filter_cons_of_pos hq]
      by_cases hp : p a
      · rw [List.find?_cons_of_pos _ hp, List.find?_cons_of_pos _ hp]
      · rw [List.find?_cons_of_neg _ (by simpa using hp),
          List.find?_cons_of_neg _ (by simpa using hp)]
        exact ih
    · have hp : ¬ p a = true := fun hpa => hq (h a hpa)
      rw [List.filter_cons_of_neg (by simpa using hq),
        List.find?_cons_of_neg _ (by simpa using hp)]
      exact ih

lemma hmLookup_hmInsert_self {α : Type} (m : List (String × α)) (k : String) (v : α) :
    hmLookup (hmInsert m k v) k = some v := by
  unfold hmLookup hmInsert
  rw [List.find?_cons_of_pos _ (by simp)]
  rfl

lemma hmLookup_hmInsert_ne {α : Type} (m : List (String × α)) (k k2 : String) (v : α)
    (h : k2 ≠ k) :
    hmLookup (hmInsert m k v) k2 = hmLookup m k2 := by
  unfold hmLookup hmInsert
  rw [List.find?_cons_of_neg _ (by simp [Ne.symm h])]
  rw [find_filter_eq _ _ ?_ m]
  intro kv hkv
  simp only [decide_eq_true_eq] at hkv
  simp [hkv, h]

lemma hmLookup_some_mem {α : Type} (m : List (String × α)) (k : String) (v : α)
    (h : hmLookup m k = some v) : (k, v) ∈ m := by
  unfold hmLookup at h
  obtain ⟨kv, hfind, hsnd⟩ := Option.map_eq_some'.mp h
  have hmem := List.mem_of_find?_eq_some hfind
  have hkey := List.find?_some hfind
  simp only [decide_eq_true_eq] at hkey
  have : kv = (k, v) := by
    cases kv
    simp_all
  rwa [this] at hmem

lemma mem_serialize_of_mem (d : RatingsData) (kv : String × Rating)
    (h : kv ∈ d.ratings ++ d.orphaned_ratings) :
    (kv.1, kv.2.to_u8) ∈ d.serialize := by
  unfold RatingsData.serialize
  refine List.mem_map.mpr ⟨kv, ?_, rfl⟩
  rw [List.Perm.mem_iff (List.perm_insertionSort _ _)]
  exact h

lemma to_u8_from_u8 (lvl : Nat) : (Rating.from_u8 lvl).to_u8 = min lvl 2 := by
  have h : min lvl 2 = 0 ∨ min lvl 2 = 1 ∨ min lvl 2 = 2 := by omega
  rcases h with h | h | h <;> simp [Rating.from_u8, Rating.to_u8, h]

/-- The per-entry step of the deserialization loop in `RatingsData::load`
(loaded_dir.rs lines 406-413), abbreviated for the fold lemmas below. -/
def loadStep (known_images : List String) (d : RatingsData) (kv : String × Nat) : RatingsData :=
  let rating := Rating.from_u8 kv.2
  if kv.1 ∈ known_images then
    { d with ratings := hmInsert d.ratings kv.1 rating }
  else
    { d with orphaned_ratings := hmInsert d.orphaned_ratings kv.1 rating }

lemma load_eq_foldl_loadStep (known_images : List String) (file : List (String × Nat)) :
    RatingsData.load known_images (some file) =
      file.foldl (loadStep known_images)
        { ratings := known_images.foldl (fun m name => hmInsert m name Rating.Low) []
          orphaned_ratings := [] } := by
  rfl

lemma load_fold_preserves_orphan (known_images : List String) (img_name : String) (r : Rating) :
    ∀ (file : List (String × Nat)) (d : RatingsData),
      img_name ∉ file.map Prod.fst →
      hmLookup d.orphaned_ratings img_name = some r →
      hmLookup (file.foldl (loadStep known_images) d).orphaned_ratings img_name = some r := by
  intro file
  induction file with
  | nil => intro d _ h; exact h
  | cons kv rest ih =>
    intro d hkeys h
    simp only [List.map_cons, List.mem_cons] at hkeys
    push_neg at hkeys
    simp only [List.foldl_cons]
    refine ih _ hkeys.2 ?_
    unfold loadStep
    by_cases hknown : kv.1 ∈ known_images
    · rw [if_pos hknown]
      exact h
    · rw [if_neg hknown]
      rw [hmLookup_hmInsert_ne _ _ _ _ hkeys.1]
      exact h

lemma load_fold_orphan (known_images : List String) (img_name : String) (lvl : Nat) :
    ∀ (file : List (String × Nat)) (d : RatingsData),
      (img_name, lvl) ∈ file →
      img_name ∉ known_images →
      (file.map Prod.fst).Nodup →
      hmLookup (file.foldl (loadStep known_images) d).orphaned_ratings img_name =
        some (Rating.from_u8 lvl) := by
  intro file
  induction file with
  | nil => intro d hmem _ _; exact absurd hmem (List.not_mem_nil _)
  | cons kv rest ih =>
    intro d hmem hunknown hnodup
    simp only [List.map_cons, List.nodup_cons] at hnodup
    simp only [List.foldl_cons]
    rcases List.mem_cons.mp hmem with heq | hrest
    · subst heq
      refine load_fold_preserves_orphan known_images img_name _ rest _ hnodup.1 ?_
      unfold loadStep
      rw [if_neg hunknown]
      exact hmLookup_hmInsert_self _ _ _
    · exact ih _ hrest hunknown hnodup.2

lemma known_fold_lookup_isSome (img_name : String) :
    ∀ (known_images : List String) (m : List (String × Rating)),
      img_name ∈ known_images ∨ (hmLookup m img_name).isSome →
      (hmLookup (known_images.foldl (fun m name => hmInsert m name Rating.Low) m) img_name).isSome := by
  intro known_images
  induction known_images with
  | nil =>
    intro m h
    rcases h with h | h
    · exact absurd h (List.not_mem_nil _)
    · exact h
  | cons name rest ih =>
    intro m h
    simp only [List.foldl_cons]
    by_cases hname : img_name = name
    · refine ih _ (Or.inr ?_)
      subst hname
      rw [hmLookup_hmInsert_self]
      rfl
    · refine ih _ ?_
      rcases h with h | h
      · rcases List.mem_cons.mp h with heq | hmem
        · exact absurd heq hname
        · exact Or.inl hmem
      · refine Or.inr ?_
        rwa [hmLookup_hmInsert_ne _ _ _ _ hname]

lemma load_fold_preserves_ratings_isSome (known_images : List String) (img_name : String) :
    ∀ (file : List (String × Nat)) (d : RatingsData),
      (hmLookup d.ratings img_name).isSome →
      (hmLookup (file.foldl (loadStep known_images) d).ratings img_name).isSome := by
  intro file
  induction file with
  | nil => intro d h; exact h
  | cons kv rest ih =>
    intro d h
    simp only [List.foldl_cons]
    refine ih _ ?_
    unfold loadStep
    by_cases hknown : kv.1 ∈ known_images
    · rw [if_pos hknown]
      by_cases hname : img_name = kv.1
      · subst hname
        rw [hmLookup_hmInsert_self]
        rfl
      · rwa [hmLookup_hmInsert_ne _ _ _ _ hname]
    · rw [if_neg hknown]
      exact h

/-! ## Claim theorems about the ratings store -/

/-- C3 counterexample: directory with the single image a.jpg, previously
rated High in the sidecar file. Setting its rating to Low does not remove
the stored entry: the subsequently saved file still contains a.jpg (with
level 0), refuting the claim that the save omits the name. -/
theorem c3_counterexample :
    "a.jpg" ∈ ((setRating (RatingsData.load ["a.jpg"] (some [("a.jpg", 2)]))
      ("a.jpg") Rating.Low).serialize).map Prod.fst := by
  decide

/-- C3 (amended): for every file name, setting its rating to Low stores an
entry mapping that name to Low, so that a subsequent save writes a file
that contains that name with level 0: the stored rating set is not sparse
(`set_rating` inserts unconditionally, and `RatingsData::load` pre-fills
every known name with Low, so every known name is written out). -/
theorem c3_set_low_keeps_entry (d : RatingsData) (img_name : String) :
    (img_name, 0) ∈ (setRating d img_name Rating.Low).serialize := by
  have h : (img_name, Rating.Low) ∈
      (setRating d img_name Rating.Low).ratings ++
        (setRating d img_name Rating.Low).orphaned_ratings := by
    apply List.mem_append_left
    exact List.mem_cons_self _ _
  exact mem_serialize_of_mem _ _ h

/-- C9 counterexample: a ratings file whose only entry is the orphaned name
ghost.jpg with level 7. After one load+save cycle the saved file contains
ghost.jpg with level 2 (clamped by `Rating::from_u8`), not with its
original level 7 — refuting the claim for out-of-range levels. -/
theorem c9_counterexample :
    ("ghost.jpg", 7) ∉ (RatingsData.load [] (some [("ghost.jpg", 7)])).serialize ∧
      ("ghost.jpg", 2) ∈ (RatingsData.load [] (some [("ghost.jpg", 7)])).serialize := by
  decide

/-- C9 (amended): for every ratings file containing an entry whose name is
not in the current directory listing, one load followed by one save
produces a file that still contains that name, with its original level
clamped into `[0, 2]` (`min level 2`); the level is preserved exactly
whenever it is at most 2. The file is a YAML map, so its keys are unique. -/
theorem c9_orphan_preserved (known_images : List String) (file : List (String × Nat))
    (img_name : String) (lvl : Nat)
    (hmem : (img_name, lvl) ∈ file)
    (hunknown : img_name ∉ known_images)
    (hnodup : (file.map Prod.fst).Nodup) :
    (img_name, min lvl 2) ∈ (RatingsData.load known_images (some file)).serialize := by
  rw [load_eq_foldl_loadStep]
  have horph := load_fold_orphan known_images img_name lvl file
    { ratings := known_images.foldl (fun m name => hmInsert m name Rating.Low) []
      orphaned_ratings := [] }
    hmem hunknown hnodup
  have hm := hmLookup_some_mem _ _ _ horph
  have := mem_serialize_of_mem _ _ (List.mem_append_right _ hm)
  rwa [to_u8_from_u8] at this

/-- Witness for the amended C9: sidecar with the orphaned entry
ghost.jpg at level 1, directory containing only a.jpg. -/
theorem c9_witness :
    ("ghost.jpg", 1) ∈ [("ghost.jpg", 1)] ∧
      ("ghost.jpg" : String) ∉ ["a.jpg"] ∧
      (([("ghost.jpg", 1)] : List (String × Nat)).map Prod.fst).Nodup ∧
      ("ghost.jpg", min 1 2) ∈ (RatingsData.load ["a.jpg"] (some [("ghost.jpg", 1)])).serialize :=
  ⟨by decide, by decide, by decide,
    c9_orphan_preserved ["a.jpg"] [("ghost.jpg", 1)] ("ghost.jpg") 1
      (by decide) (by decide) (by decide)⟩

/-- C10: after session creation the in-memory active rating map contains an
entry for every known file name of the directory collection, whether or
not a sidecar file exists, so the lookup that `ImageRatings::get_rating`
unwraps (reached from `LoadedDir::get_current_rating` with the file name
of a collection entry, always a key of `name_to_idx`) is always `some`
and the unwrap never panics. -/
theorem c10_get_rating_total (known_images : List String)
    (file : Option (List (String × Nat))) (img_name : String)
    (h : img_name ∈ known_images) :
    (getRating (RatingsData.load known_images file) img_name).isSome := by
  cases file with
  | none =>
    exact known_fold_lookup_isSome img_name known_images [] (Or.inl h)
  | some deser_map =>
    rw [load_eq_foldl_loadStep]
    refine load_fold_preserves_ratings_isSome known_images img_name deser_map _ ?_
    exact known_fold_lookup_isSome img_name known_images [] (Or.inl h)

/-- Witness for C10: two known images, no sidecar file, querying b.jpg. -/
theorem c10_witness :
    ("b.jpg" : String) ∈ ["a.jpg", "b.jpg"] ∧
      (getRating (RatingsData.load ["a.jpg", "b.jpg"] none) ("b.jpg")).isSome :=
  ⟨by decide, c10_get_rating_total ["a.jpg", "b.jpg"] none ("b.jpg") (by decide)⟩

end Fotoleine

